import Mathlib

/-!
Verification of the download-queue / VPN-selection core of `src/server.py`
(a yt-dlp MCP server).  Python functions are shallowly embedded as Lean
functions; external processes (yt-dlp, wg, wg-quick) are modelled by
explicit outcome values supplied as inputs, timestamps are modelled as
natural numbers, and the mutable queue singleton is modelled as an explicit
state together with a step relation.
-/

set_option maxRecDepth 4000

/-- Python whitespace characters, as used by `str.strip()` / `str.split()`. -/
def isPySpace (c : Char) : Bool :=
  c = ' ' || c = '\t' || c = '\n' || c = '\r' || c = '\x0b' || c = '\x0c'

/-- Python `str.strip()`: drop leading and trailing whitespace. -/
def pyStrip (s : String) : String :=
  String.mk (((s.toList.dropWhile isPySpace).reverse.dropWhile isPySpace).reverse)

/-- Helper for `pySplit`: accumulates the current word (reversed) while scanning. -/
def pySplitAux : List Char → List Char → List String
  | [], [] => []
  | [], acc => [String.mk acc.reverse]
  | c :: rest, acc =>
    if isPySpace c then
      match acc with
      | [] => pySplitAux rest []
      | _ => String.mk acc.reverse :: pySplitAux rest []
    else
      pySplitAux rest (c :: acc)

/-- Python `str.split()` with no argument: split on runs of whitespace, no empty parts. -/
def pySplit (s : String) : List String :=
  pySplitAux s.toList []

/-- Does `needle` occur as a leading block of `hay`?  (`list` prefix test on chars). -/
def charsStartWith : List Char → List Char → Bool
  | [], _ => true
  | _ :: _, [] => false
  | a :: as, b :: bs => a == b && charsStartWith as bs

/-- Does `needle` occur contiguously anywhere in `hay`? -/
def charsContain (needle : List Char) : List Char → Bool
  | [] => charsStartWith needle []
  | c :: rest => charsStartWith needle (c :: rest) || charsContain needle rest

/-- Python's `sub in s` substring containment test. -/
def strContains (s sub : String) : Bool :=
  charsContain sub.toList s.toList

/-- Python's `any(x in s for x in xs)`. -/
def anyIn (s : String) (xs : List String) : Bool :=
  xs.any fun x => strContains s x

/-- Python `str.lower()`, character by character. -/
def pyLower (s : String) : String :=
  String.mk (s.toList.map Char.toLower)

/-- Characters remaining after the first `://` separator, if any. -/
def afterSchemeSep : List Char → Option (List Char)
  | [] => none
  | ':' :: '/' :: '/' :: rest => some rest
  | _ :: rest => afterSchemeSep rest

/-- Models `urllib.parse.urlparse(url).netloc` for URLs of the common shape
`scheme://host/...`: the text after the first `://` up to the first `/`, `?`
or `#`.  URLs without `://` (no authority component) yield the empty string. -/
def urlNetloc (url : String) : String :=
  match afterSchemeSep url.toList with
  | some rest => String.mk (rest.takeWhile fun c => !(c == '/' || c == '?' || c == '#'))
  | none => ""

/-- UK streaming-service domain fragments, first rule of `detect_url_country`. -/
def ukServiceDomains : List String :=
  ["bbc.co.uk", "iplayer", "itv.com", "channel4.com", "channel5.com"]

/-- US streaming-service domain fragments. -/
def usServiceDomains : List String :=
  ["hulu.com", "nbc.com", "abc.com", "cbs.com", "fox.com", "hbo.com", "peacocktv.com"]

/-- Canadian streaming-service domain fragments. -/
def caServiceDomains : List String :=
  ["cbc.ca", "ctv.ca", "globaltv.com"]

/-- Australian streaming-service domain fragments. -/
def auServiceDomains : List String :=
  ["abc.net.au", "sbs.com.au", "9now.com.au", "10play.com.au", "7plus.com.au"]

/-- Embeds `detect_url_country` from `src/server.py`: an ordered table of
domain/keyword heuristics, evaluated top to bottom, first match wins. -/
def detect_url_country (url : String) : Option String :=
  let url_lower := pyLower url
  let domain := pyLower (urlNetloc url)
  if anyIn domain ukServiceDomains then some "gb"
  else if strContains domain ".uk" || strContains url_lower "britain" || strContains url_lower "british" then some "gb"
  else if anyIn domain usServiceDomains then some "us"
  else if strContains domain ".us" then some "us"
  else if anyIn domain caServiceDomains then some "ca"
  else if strContains domain ".ca" || strContains url_lower "canada" || strContains url_lower "canadian" then some "ca"
  else if anyIn domain auServiceDomains then some "au"
  else if strContains domain ".au" || strContains url_lower "australia" then some "au"
  else if strContains domain ".nz" || strContains url_lower "newzealand" then some "nz"
  else if strContains domain ".de" || strContains url_lower "germany" || strContains url_lower "deutsche" then some "de"
  else if strContains domain ".fr" || strContains url_lower "france" then some "fr"
  else if strContains domain ".it" || strContains url_lower "italy" || strContains url_lower "italia" then some "it"
  else if strContains domain ".es" || strContains url_lower "spain" || strContains url_lower "españa" then some "es"
  else if strContains domain ".nl" || strContains url_lower "netherlands" then some "nl"
  else if strContains domain ".se" || strContains url_lower "sweden" then some "se"
  else if strContains domain ".no" || strContains url_lower "norway" then some "no"
  else if strContains domain ".dk" || strContains url_lower "denmark" then some "dk"
  else if strContains domain ".jp" || strContains url_lower "japan" then some "jp"
  else if strContains domain ".kr" || strContains url_lower "korea" then some "kr"
  else if strContains domain ".sg" || strContains url_lower "singapore" then some "sg"
  else if strContains domain ".hk" || strContains url_lower "hongkong" then some "hk"
  else if strContains domain "youtube.com" || strContains domain "youtu.be" then none
  else none

/-- Is `c` an ASCII lower-case letter (the regex class `[a-z]`)? -/
def isLowerAZ (c : Char) : Bool :=
  'a' ≤ c && c ≤ 'z'

/-- Embeds `parse_config_location` from `src/server.py`: matches the regex
`([a-z]{2})-([a-z]{3})-` at the start of the config filename stem and
returns the (country, city) pair, or `none` when the stem does not match
(the Python function returns an empty dict in that case). -/
def parse_config_location (stem : String) : Option (String × String) :=
  match stem.toList with
  | c1 :: c2 :: h1 :: c3 :: c4 :: c5 :: h2 :: _ =>
    if isLowerAZ c1 && isLowerAZ c2 && h1 == '-' && isLowerAZ c3 && isLowerAZ c4 && isLowerAZ c5 && h2 == '-' then
      some (String.mk [c1, c2], String.mk [c3, c4, c5])
    else none
  | _ => none

/-- The `country_configs` list built inside `select_best_config`: the configs
(filename stems, in listing order) whose parsed country equals `country`,
each paired with its parsed city. -/
def configLocations (configs : List String) (country : String) : List (String × String) :=
  configs.filterMap fun cfg =>
    match parse_config_location cfg with
    | some loc => if loc.1 = country then some (cfg, loc.2) else none
    | none => none

/-- Embeds `select_best_config` from `src/server.py`.  The directory listing of
`get_available_configs` (sorted filename stems) is passed in as `configs`.
The `if preferred_city:` truthiness test of the source skips city matching
for an empty string as well as for `None`. -/
def select_best_config (configs : List String) :
    Option String → Option String → Option String
  | none, _ => none
  | some c, preferred_city =>
    match configLocations configs c with
    | [] => none
    | first :: _ =>
      match preferred_city with
      | some pc =>
        if pc.isEmpty then some first.1
        else
          match (configLocations configs c).find? (fun p => p.2 == pc) with
          | some (cfg, _) => some cfg
          | none => some first.1
      | none => some first.1

/-- Outcome of one external `wg show interfaces` invocation. -/
inductive WgShowOutcome where
  | ran (returncode : Int) (stdout stderr : String)
  | notInstalled
deriving DecidableEq, Repr

/-- Embeds `get_active_wireguard` from `src/server.py`: on a clean exit, the first
whitespace-separated name in the tool's standard output; `none` when the
output lists no interfaces, the tool exits non-zero (`CalledProcessError`
from `check=True`), or the tool is not installed (`FileNotFoundError`). -/
def get_active_wireguard (o : WgShowOutcome) : Option String :=
  match o with
  | .ran code stdout _ =>
    if code = 0 then (pySplit (pyStrip stdout)).head? else none
  | .notInstalled => none

/-- Outcome of one external `wg-quick`/`yt-dlp` invocation under
`subprocess.run(..., timeout=...)`: a completed process or a raised
`TimeoutExpired`. -/
inductive RunOutcome where
  | exited (returncode : Int) (stdout stderr : String)
  | timedOut
deriving DecidableEq, Repr

/-- Embeds `wireguard_up` from `src/server.py` (the interface name is the config
filename stem). -/
def wireguard_up (interface : String) (o : RunOutcome) : Bool × String :=
  match o with
  | .exited code _ err =>
    if code = 0 then (true, "WireGuard interface " ++ interface ++ " is now up")
    else (false, "Failed to start " ++ interface ++ ": " ++ err)
  | .timedOut => (false, "Timeout starting " ++ interface)

/-- Embeds `wireguard_down` from `src/server.py`. -/
def wireguard_down (interface : String) (o : RunOutcome) : Bool × String :=
  match o with
  | .exited code _ err =>
    if code = 0 then (true, "WireGuard interface " ++ interface ++ " is now down")
    else (false, "Failed to stop " ++ interface ++ ": " ++ err)
  | .timedOut => (false, "Timeout stopping " ++ interface)

/-- The `DownloadStatus` enum of `src/server.py`. -/
inductive DownloadStatus where
  | queued
  | downloading
  | completed
  | failed
deriving DecidableEq, Repr

/-- The `DownloadJob` dataclass of `src/server.py`.  The ISO-format timestamp
strings of the source are modelled as natural-number time units supplied with
each event. -/
structure Job where
  id : Nat
  url : String
  status : DownloadStatus
  auto_vpn : Bool
  preferred_city : Option String
  output_dir : Option String
  format_spec : String
  added_at : Nat
  started_at : Option Nat := none
  completed_at : Option Nat := none
  error : Option String := none
  result : Option String := none
deriving DecidableEq, Repr

/-- Outcome of one external `yt-dlp` download invocation inside
`_download_video_internal`: a completed process, a raised `TimeoutExpired`,
or any other exception raised by the invocation (caught by the generic
`except Exception` branch of the source). -/
inductive FetchOutcome where
  | exited (returncode : Int) (stdout stderr : String)
  | timedOut
  | raised (msg : String)
deriving DecidableEq, Repr

/-- One job's view of the external world during `_download_video_internal`:
the outcomes of each external interaction the function can perform, supplied
as explicit inputs.  `mkdirFails` is `some msg` when `output_path.mkdir`
raises (this happens before the `try` block of the source). -/
structure DlWorld where
  mkdirFails : Option String
  showBefore : WgShowOutcome
  configs : List String
  upOutcome : RunOutcome
  fetchOutcome : FetchOutcome
  showAfter : WgShowOutcome
  downOutcome : RunOutcome
deriving DecidableEq, Repr

deriving instance DecidableEq for Except

/-- Result of one run of `_download_video_internal`: the returned string (or
the text of a propagated exception, as `Except.error`), whether this job
itself brought the VPN up (`vpn_started` in the source), whether the active
interface was re-queried in the `finally` block, and the teardown call that
was made there, if any, paired with `wireguard_down`'s discarded result. -/
structure DlResult where
  ret : Except String String
  vpn_started : Bool
  queriedAfter : Bool
  downCall : Option (String × (Bool × String))
deriving DecidableEq, Repr

/-- The VPN-handling step at the top of the `try` block of
`_download_video_internal`: computes the `vpn_started` flag and the
descriptive `vpn_msg` line for every branch. -/
def vpnStep (url : String) (auto_vpn : Bool) (preferred_city : Option String)
    (w : DlWorld) : Bool × String :=
  let original_vpn := get_active_wireguard w.showBefore
  if auto_vpn && original_vpn.isNone then
    match detect_url_country url with
    | some country =>
      match select_best_config w.configs (some country) preferred_city with
      | some config =>
        match wireguard_up config w.upOutcome with
        | (true, _) => (true, "Started VPN: " ++ config ++ " (detected country: " ++ country ++ ")")
        | (false, msg) => (false, "VPN start failed: " ++ msg)
      | none => (false, "No VPN config found for " ++ country ++ ", proceeding without VPN")
    | none => (false, "No VPN needed for this URL (generic/YouTube)")
  else
    (false,
      match original_vpn with
      | some v => "Using existing VPN: " ++ v
      | none => "Proceeding without VPN")

/-- Embeds `_download_video_internal` from `src/server.py`.  The `output_dir` and
`format_spec` arguments only shape the external command line, which is part
of the modelled fetch outcome; `url` drives country detection.  The `try`
body returns a string for every fetch outcome (success, non-zero exit,
timeout and any other exception are all folded into the returned text); the
`finally` block then tears down a self-started VPN, discarding the teardown
result.  Only a failure before the `try` block (`mkdir`) propagates as an
exception, modelled as `Except.error`. -/
def download_video_internal (url : String) (auto_vpn : Bool)
    (preferred_city : Option String) (output_dir : Option String)
    (format_spec : String) (w : DlWorld) : DlResult :=
  match w.mkdirFails with
  | some e => { ret := .error e, vpn_started := false, queriedAfter := false, downCall := none }
  | none =>
    let original_vpn := get_active_wireguard w.showBefore
    let vs := vpnStep url auto_vpn preferred_city w
    let vpn_started := vs.1
    let vpn_msg := vs.2
    let body : String :=
      match w.fetchOutcome with
      | .exited code out err =>
        if code = 0 then vpn_msg ++ "\n\nDownload successful!\n" ++ out
        else vpn_msg ++ "\n\nDownload failed:\n" ++ err
      | .timedOut => vpn_msg ++ "\n\nDownload timed out after 10 minutes"
      | .raised m => vpn_msg ++ "\n\nError: " ++ m
    if vpn_started && original_vpn.isNone then
      match get_active_wireguard w.showAfter with
      | some active =>
        { ret := .ok body, vpn_started := vpn_started, queriedAfter := true,
          downCall := some (active, wireguard_down active w.downOutcome) }
      | none =>
        { ret := .ok body, vpn_started := vpn_started, queriedAfter := true, downCall := none }
    else
      { ret := .ok body, vpn_started := vpn_started, queriedAfter := false, downCall := none }

/-- The mutation performed at the start of `DownloadQueue._process_job`:
status becomes `downloading` and the start timestamp is set. -/
def markStarted (j : Job) (t : Nat) : Job :=
  { j with status := .downloading, started_at := some t }

/-- The terminal mutation of `DownloadQueue._process_job`: a normal return of
`_download_video_internal` makes the job `completed` with that return value
as `result`; a propagated exception makes it `failed` with the exception
text as `error`.  Either way the completion timestamp is set (`finally`). -/
def applyOutcome (j : Job) (out : Except String String) (t : Nat) : Job :=
  match out with
  | .ok r => { j with status := .completed, result := some r, completed_at := some t }
  | .error e => { j with status := .failed, error := some e, completed_at := some t }

/-- Embeds `DownloadQueue._process_job`, run against a given external world:
mark started at `t0`, run the download, record the outcome at `t1`. -/
def process_job (j : Job) (w : DlWorld) (t0 t1 : Nat) : Job :=
  applyOutcome (markStarted j t0)
    (download_video_internal j.url j.auto_vpn j.preferred_city j.output_dir j.format_spec w).ret t1

/-- The mutable state owned by the `DownloadQueue` singleton: the backlog
(`deque`), the completed-job history, the in-flight job reference, and the
id counter.  `dequeued` is an observation log, not present in the source:
the ids of the jobs the worker has popped, in pop order, recorded so that
the FIFO ordering guarantee can be stated. -/
structure QueueState where
  queue : List Job
  history : List Job
  current_job : Option Job
  next_id : Nat
  dequeued : List Nat
deriving DecidableEq, Repr

/-- The immutable inputs of one `DownloadQueue.add` call. -/
structure AddReq where
  url : String
  auto_vpn : Bool
  preferred_city : Option String
  output_dir : Option String
  format_spec : String
deriving DecidableEq, Repr

/-- The state constructed by `DownloadQueue.__init__`. -/
def initState : QueueState :=
  { queue := [], history := [], current_job := none, next_id := 1, dequeued := [] }

/-- Embeds `DownloadQueue.add`: build a `queued` job with the next id at time `t`,
append it to the backlog, bump the counter; returns the job and new state. -/
def DownloadQueue.add (s : QueueState) (r : AddReq) (t : Nat) : Job × QueueState :=
  let job : Job :=
    { id := s.next_id, url := r.url, status := .queued, auto_vpn := r.auto_vpn,
      preferred_city := r.preferred_city, output_dir := r.output_dir,
      format_spec := r.format_spec, added_at := t }
  (job, { s with queue := s.queue ++ [job], next_id := s.next_id + 1 })

/-- The search-and-remove loop of `DownloadQueue.cancel`: find the first
backlog job with the given id; if found, return it mutated to the cancelled
form together with the backlog with that job removed. -/
def cancelFromList (l : List Job) (job_id : Nat) (t : Nat) : Option (Job × List Job) :=
  match l with
  | [] => none
  | j :: rest =>
    if j.id = job_id then
      some ({ j with
                status := .failed, error := some "Cancelled by user",
                completed_at := some t }, rest)
    else
      match cancelFromList rest job_id t with
      | some (cj, rest') => some (cj, j :: rest')
      | none => none

/-- Embeds `DownloadQueue.cancel` at time `t`: on a backlog match, mark the job
failed/cancelled, remove it from the backlog, append it to history and
return `true`; otherwise return `false` with the state unchanged. -/
def DownloadQueue.cancel (s : QueueState) (job_id : Nat) (t : Nat) : Bool × QueueState :=
  match cancelFromList s.queue job_id t with
  | some (cj, queue') =>
    (true, { s with queue := queue', history := s.history ++ [cj] })
  | none => (false, s)

/-- Embeds `DownloadQueue.clear_history`: empty the history list. -/
def DownloadQueue.clear_history (s : QueueState) : QueueState :=
  { s with history := [] }

/-- The events that mutate the queue state.  `startJob` is the worker's
lock-protected pop of the backlog head into the in-flight slot together
with `_process_job`'s immediate `downloading` marking; `finishJob` is the
job's terminal mutation together with the worker's lock-protected move of
the job into history and clearing of the in-flight slot. -/
inductive QEvent where
  | add (r : AddReq) (t : Nat)
  | startJob (t : Nat)
  | finishJob (out : Except String String) (t : Nat)
  | cancelJob (job_id : Nat) (t : Nat)
  | clearHist
deriving DecidableEq, Repr

/-- One step of the queue system.  `none` means the event is not enabled:
the single sequential worker only pops a job (`startJob`) when it is not
processing one (`current_job = none`, in-flight slot empty), and only
finishes a job it is processing. -/
def stepQueue (s : QueueState) : QEvent → Option QueueState
  | .add r t => some (DownloadQueue.add s r t).2
  | .startJob t =>
    match s.current_job, s.queue with
    | none, j :: rest =>
      some { s with
               queue := rest, current_job := some (markStarted j t),
               dequeued := s.dequeued ++ [j.id] }
    | _, _ => none
  | .finishJob out t =>
    match s.current_job with
    | some j =>
      some { s with current_job := none, history := s.history ++ [applyOutcome j out t] }
    | none => none
  | .cancelJob job_id t => some (DownloadQueue.cancel s job_id t).2
  | .clearHist => some (DownloadQueue.clear_history s)

/-- States reachable from the freshly constructed queue. -/
inductive Reachable : QueueState → Prop where
  | init : Reachable initState
  | step {s : QueueState} {e : QEvent} {s' : QueueState} :
      Reachable s → stepQueue s e = some s' → Reachable s'

/-- Every job tracked by a queue state: backlog, in-flight slot, history. -/
def allJobs (s : QueueState) : List Job :=
  s.queue ++ s.current_job.toList ++ s.history

/-- Per-job field discipline: result/error/completion timestamp as a
function of the lifecycle status. -/
def jobFieldsOk (j : Job) : Prop :=
  (j.status = .queued → j.result = none ∧ j.error = none ∧ j.completed_at = none) ∧
  (j.status = .downloading → j.result = none ∧ j.error = none) ∧
  (j.status = .completed → j.result ≠ none ∧ j.error = none ∧ j.completed_at ≠ none) ∧
  (j.status = .failed → j.error ≠ none ∧ j.result = none ∧ j.completed_at ≠ none)

/-- The inductive invariant of the queue system. -/
structure QInv (s : QueueState) : Prop where
  qStatus : ∀ j ∈ s.queue, j.status = DownloadStatus.queued
  cStatus : ∀ j ∈ s.current_job.toList, j.status = DownloadStatus.downloading
  hStatus : ∀ j ∈ s.history, j.status = DownloadStatus.completed ∨ j.status = DownloadStatus.failed
  fieldsOk : ∀ j ∈ allJobs s, jobFieldsOk j
  ordered : List.Pairwise (· < ·) (s.dequeued ++ s.queue.map Job.id)
  idsLt : ∀ j ∈ allJobs s, j.id < s.next_id
  dqLt : ∀ i ∈ s.dequeued, i < s.next_id
  disj : ∀ j ∈ s.current_job.toList ++ s.history, j.id ∉ s.queue.map Job.id

theorem mem_allJobs {s : QueueState} {j : Job} :
    j ∈ allJobs s ↔ j ∈ s.queue ∨ s.current_job = some j ∨ j ∈ s.history := by
  simp [allJobs, List.mem_append, Option.mem_toList, Option.mem_def]

/-- Full characterization of the backlog search-and-remove loop of
`DownloadQueue.cancel`. -/
theorem cancelFromList_spec (l : List Job) (job_id t : Nat) :
    (cancelFromList l job_id t = none ∧ job_id ∉ l.map Job.id) ∨
    (∃ l1 j l2, l = l1 ++ j :: l2 ∧ j.id = job_id ∧ (∀ j' ∈ l1, j'.id ≠ job_id) ∧
      cancelFromList l job_id t =
        some ({ j with
                  status := .failed, error := some "Cancelled by user",
                  completed_at := some t }, l1 ++ l2)) := by
  induction l with
  | nil => left; simp [cancelFromList]
  | cons j rest ih =>
    by_cases h : j.id = job_id
    · right
      exact ⟨[], j, rest, by simp, h, by simp, by simp [cancelFromList, h]⟩
    · rcases ih with ⟨h1, h2⟩ | ⟨l1, j', l2, heq, hid, hfirst, heval⟩
      · left
        refine ⟨by simp [cancelFromList, h, h1], ?_⟩
        simp only [List.map_cons, List.mem_cons]
        rintro (rfl | hmem)
        · exact h rfl
        · exact h2 hmem
      · right
        refine ⟨j :: l1, j', l2, by simp [heq], hid, ?_, ?_⟩
        · intro j'' hj''
          rcases List.mem_cons.mp hj'' with rfl | hj''
          · exact h
          · exact hfirst j'' hj''
        · simp [cancelFromList, h, heval]

theorem qinv_init : QInv initState := by
  constructor <;> simp [initState, allJobs]

theorem qinv_step {s : QueueState} {e : QEvent} {s' : QueueState}
    (inv : QInv s) (h : stepQueue s e = some s') : QInv s' := by
  obtain ⟨qS, cS, hS, fOk, ord, idsLt, dqLt, disj⟩ := inv
  cases e with
  | add r t =>
    simp only [stepQueue, DownloadQueue.add, Option.some.injEq] at h
    subst h
    set nj : Job :=
      { id := s.next_id, url := r.url, status := .queued, auto_vpn := r.auto_vpn,
        preferred_city := r.preferred_city, output_dir := r.output_dir,
        format_spec := r.format_spec, added_at := t } with hnj
    have hnjid : nj.id = s.next_id := rfl
    constructor
    · intro j hj
      rcases List.mem_append.mp hj with hj | hj
      · exact qS j hj
      · simp only [List.mem_singleton] at hj
        subst hj; rfl
    · exact cS
    · exact hS
    · intro j hj
      rw [mem_allJobs] at hj
      rcases hj with hj | hj | hj
      · rcases List.mem_append.mp hj with hj | hj
        · exact fOk j (by rw [mem_allJobs]; exact Or.inl hj)
        · simp only [List.mem_singleton] at hj
          subst hj
          refine ⟨fun _ => ⟨rfl, rfl, rfl⟩, ?_, ?_, ?_⟩ <;> intro hc <;> simp [hnj] at hc
      · exact fOk j (by rw [mem_allJobs]; exact Or.inr (Or.inl hj))
      · exact fOk j (by rw [mem_allJobs]; exact Or.inr (Or.inr hj))
    · have key : List.Pairwise (· < ·) ((s.dequeued ++ s.queue.map Job.id) ++ [s.next_id]) := by
        rw [List.pairwise_append]
        refine ⟨ord, List.pairwise_singleton _ _, ?_⟩
        intro a ha b hb
        simp only [List.mem_singleton] at hb
        subst hb
        rcases List.mem_append.mp ha with ha | ha
        · exact dqLt a ha
        · obtain ⟨j, hj, rfl⟩ := List.mem_map.mp ha
          exact idsLt j (by rw [mem_allJobs]; exact Or.inl hj)
      simpa [List.append_assoc] using key
    · intro j hj
      rw [mem_allJobs] at hj
      rcases hj with hj | hj | hj
      · rcases List.mem_append.mp hj with hj | hj
        · exact Nat.lt_succ_of_lt (idsLt j (by rw [mem_allJobs]; exact Or.inl hj))
        · simp only [List.mem_singleton] at hj
          subst hj
          exact Nat.lt_succ_self _
      · exact Nat.lt_succ_of_lt (idsLt j (by rw [mem_allJobs]; exact Or.inr (Or.inl hj)))
      · exact Nat.lt_succ_of_lt (idsLt j (by rw [mem_allJobs]; exact Or.inr (Or.inr hj)))
    · intro i hi
      exact Nat.lt_succ_of_lt (dqLt i hi)
    · intro j hj
      have hlt : j.id < s.next_id := by
        rcases List.mem_append.mp hj with hj | hj
        · refine idsLt j ?_
          rw [mem_allJobs]
          exact Or.inr (Or.inl (by simpa [Option.mem_toList, Option.mem_def] using hj))
        · exact idsLt j (by rw [mem_allJobs]; exact Or.inr (Or.inr hj))
      intro hmem
      rw [List.map_append] at hmem
      rcases List.mem_append.mp hmem with hmem | hmem
      · exact disj j hj hmem
      · simp only [List.map_cons, List.map_nil, List.mem_singleton] at hmem
        rw [hmem] at hlt
        exact Nat.lt_irrefl _ hlt
  | startJob t =>
    rcases hc : s.current_job with _ | c
    · rcases hq : s.queue with _ | ⟨j, rest⟩
      · simp [stepQueue, hc, hq] at h
      · simp only [stepQueue, hc, hq, Option.some.injEq] at h
        subst h
        have hordq : List.Pairwise (· < ·) (s.dequeued ++ (j.id :: rest.map Job.id)) := by
          have := ord
          rw [hq] at this
          simpa using this
        constructor
        · intro j' hj'
          exact qS j' (by rw [hq]; exact List.mem_cons_of_mem _ hj')
        · intro j' hj'
          simp only [Option.toList_some, List.mem_singleton] at hj'
          subst hj'; rfl
        · exact hS
        · intro j' hj'
          rw [mem_allJobs] at hj'
          rcases hj' with hj' | hj' | hj'
          · exact fOk j' (by rw [mem_allJobs]; exact Or.inl (by rw [hq]; exact List.mem_cons_of_mem _ hj'))
          · simp only [Option.some.injEq] at hj'
            subst hj'
            have hjq : j ∈ s.queue := by rw [hq]; exact List.mem_cons_self _ _
            have hjs := qS j hjq
            obtain ⟨hr, he, hca⟩ := (fOk j (by rw [mem_allJobs]; exact Or.inl hjq)).1 hjs
            refine ⟨?_, fun _ => ⟨hr, he⟩, ?_, ?_⟩ <;> intro hcon <;> simp [markStarted] at hcon
          · exact fOk j' (by rw [mem_allJobs]; exact Or.inr (Or.inr hj'))
        · simpa [List.append_assoc] using hordq
        · intro j' hj'
          rw [mem_allJobs] at hj'
          rcases hj' with hj' | hj' | hj'
          · exact idsLt j' (by rw [mem_allJobs]; exact Or.inl (by rw [hq]; exact List.mem_cons_of_mem _ hj'))
          · simp only [Option.some.injEq] at hj'
            subst hj'
            have : j ∈ s.queue := by rw [hq]; exact List.mem_cons_self _ _
            simpa [markStarted] using idsLt j (by rw [mem_allJobs]; exact Or.inl this)
          · exact idsLt j' (by rw [mem_allJobs]; exact Or.inr (Or.inr hj'))
        · intro i hi
          rcases List.mem_append.mp hi with hi | hi
          · exact dqLt i hi
          · simp only [List.mem_singleton] at hi
            subst hi
            refine idsLt j ?_
            rw [mem_allJobs]
            exact Or.inl (by rw [hq]; exact List.mem_cons_self _ _)
        · intro j' hj' hmem
          have hpj : List.Pairwise (· < ·) (j.id :: rest.map Job.id) :=
            (List.pairwise_append.mp hordq).2.1
          rcases List.mem_append.mp hj' with hj' | hj'
          · simp only [Option.toList_some, List.mem_singleton] at hj'
            subst hj'
            have := (List.pairwise_cons.mp hpj).1 j.id (by simpa [markStarted] using hmem)
            exact Nat.lt_irrefl _ this
          · have := disj j' (by exact List.mem_append.mpr (Or.inr hj'))
            apply this
            rw [hq, List.map_cons]
            exact List.mem_cons_of_mem _ hmem
    · rcases hq : s.queue with _ | ⟨j, rest⟩ <;> simp [stepQueue, hc, hq] at h
  | finishJob out t =>
    rcases hc : s.current_job with _ | j
    · simp [stepQueue, hc] at h
    · simp only [stepQueue, hc, Option.some.injEq] at h
      subst h
      have hjmem : j ∈ s.current_job.toList := by simp [hc]
      have hjdl := cS j hjmem
      obtain ⟨hr, he⟩ := (fOk j (by rw [mem_allJobs]; exact Or.inr (Or.inl hc))).2.1 hjdl
      constructor
      · exact qS
      · intro j' hj'
        simp at hj'
      · intro j' hj'
        rcases List.mem_append.mp hj' with hj' | hj'
        · exact hS j' hj'
        · simp only [List.mem_singleton] at hj'
          subst hj'
          cases out with
          | ok r => left; rfl
          | error e => right; rfl
      · intro j' hj'
        rw [mem_allJobs] at hj'
        rcases hj' with hj' | hj' | hj'
        · exact fOk j' (by rw [mem_allJobs]; exact Or.inl hj')
        · simp at hj'
        · rcases List.mem_append.mp hj' with hj' | hj'
          · exact fOk j' (by rw [mem_allJobs]; exact Or.inr (Or.inr hj'))
          · simp only [List.mem_singleton] at hj'
            subst hj'
            cases out with
            | ok r =>
              refine ⟨?_, ?_, fun _ => ⟨by simp [applyOutcome], by simp [applyOutcome, he], by simp [applyOutcome]⟩, ?_⟩
                <;> intro hcon <;> simp [applyOutcome] at hcon
            | error e =>
              refine ⟨?_, ?_, ?_, fun _ => ⟨by simp [applyOutcome], by simp [applyOutcome, hr], by simp [applyOutcome]⟩⟩
                <;> intro hcon <;> simp [applyOutcome] at hcon
      · exact ord
      · intro j' hj'
        rw [mem_allJobs] at hj'
        rcases hj' with hj' | hj' | hj'
        · exact idsLt j' (by rw [mem_allJobs]; exact Or.inl hj')
        · simp at hj'
        · rcases List.mem_append.mp hj' with hj' | hj'
          · exact idsLt j' (by rw [mem_allJobs]; exact Or.inr (Or.inr hj'))
          · simp only [List.mem_singleton] at hj'
            subst hj'
            have : j.id < s.next_id := idsLt j (by rw [mem_allJobs]; exact Or.inr (Or.inl hc))
            cases out <;> simpa [applyOutcome] using this
      · exact dqLt
      · intro j' hj'
        simp only [Option.toList_none, List.nil_append] at hj'
        rcases List.mem_append.mp hj' with hj' | hj'
        · exact disj j' (List.mem_append.mpr (Or.inr hj'))
        · simp only [List.mem_singleton] at hj'
          subst hj'
          have : j.id ∉ s.queue.map Job.id := disj j (List.mem_append.mpr (Or.inl hjmem))
          cases out <;> simpa [applyOutcome] using this
  | cancelJob job_id t =>
    simp only [stepQueue, DownloadQueue.cancel] at h
    rcases cancelFromList_spec s.queue job_id t with ⟨hnone, _⟩ | ⟨l1, j, l2, heq, hid, hfirst, heval⟩
    · rw [hnone] at h
      simp only [Option.some.injEq] at h
      subst h
      exact ⟨qS, cS, hS, fOk, ord, idsLt, dqLt, disj⟩
    · rw [heval] at h
      simp only [Option.some.injEq] at h
      subst h
      have hjq : j ∈ s.queue := by rw [heq]; exact List.mem_append.mpr (Or.inr (List.mem_cons_self _ _))
      have hjqd := qS j hjq
      obtain ⟨hr, he, hca⟩ := (fOk j (by rw [mem_allJobs]; exact Or.inl hjq)).1 hjqd
      have hqsub : List.Sublist (l1 ++ l2) s.queue := by
        rw [heq]
        exact List.Sublist.append (List.Sublist.refl l1) (List.sublist_cons_self j l2)
      have hqids : List.Pairwise (· < ·) (s.queue.map Job.id) :=
        (List.pairwise_append.mp ord).2.1
      have hjnotin : j.id ∉ (l1 ++ l2).map Job.id := by
        rw [heq] at hqids
        simp only [List.map_append, List.map_cons] at hqids
        rw [List.pairwise_append] at hqids
        obtain ⟨p1, p2, p3⟩ := hqids
        intro hmem
        rw [List.map_append] at hmem
        rcases List.mem_append.mp hmem with hmem | hmem
        · exact Nat.lt_irrefl _ (p3 j.id hmem j.id (List.mem_cons_self _ _))
        · exact Nat.lt_irrefl _ ((List.pairwise_cons.mp p2).1 j.id hmem)
      constructor
      · intro j' hj'
        exact qS j' (hqsub.mem hj')
      · exact cS
      · intro j' hj'
        rcases List.mem_append.mp hj' with hj' | hj'
        · exact hS j' hj'
        · simp only [List.mem_singleton] at hj'
          subst hj'; right; rfl
      · intro j' hj'
        rw [mem_allJobs] at hj'
        rcases hj' with hj' | hj' | hj'
        · exact fOk j' (by rw [mem_allJobs]; exact Or.inl (hqsub.mem hj'))
        · exact fOk j' (by rw [mem_allJobs]; exact Or.inr (Or.inl hj'))
        · rcases List.mem_append.mp hj' with hj' | hj'
          · exact fOk j' (by rw [mem_allJobs]; exact Or.inr (Or.inr hj'))
          · simp only [List.mem_singleton] at hj'
            subst hj'
            refine ⟨?_, ?_, ?_, fun _ => ⟨by simp, by simp [hr], by simp⟩⟩
              <;> intro hcon <;> simp at hcon
      · refine List.Pairwise.sublist ?_ ord
        exact List.Sublist.append (List.Sublist.refl s.dequeued) (List.Sublist.map Job.id hqsub)
      · intro j' hj'
        rw [mem_allJobs] at hj'
        rcases hj' with hj' | hj' | hj'
        · exact idsLt j' (by rw [mem_allJobs]; exact Or.inl (hqsub.mem hj'))
        · exact idsLt j' (by rw [mem_allJobs]; exact Or.inr (Or.inl hj'))
        · rcases List.mem_append.mp hj' with hj' | hj'
          · exact idsLt j' (by rw [mem_allJobs]; exact Or.inr (Or.inr hj'))
          · simp only [List.mem_singleton] at hj'
            subst hj'
            simpa using idsLt j (by rw [mem_allJobs]; exact Or.inl hjq)
      · exact dqLt
      · intro j' hj' hmem
        rcases List.mem_append.mp hj' with hj' | hj'
        · exact disj j' (List.mem_append.mpr (Or.inl hj'))
            (List.mem_map.mpr (by
              obtain ⟨jj, hjj, hjj2⟩ := List.mem_map.mp hmem
              exact ⟨jj, hqsub.mem hjj, hjj2⟩))
        · rcases List.mem_append.mp hj' with hj' | hj'
          · exact disj j' (List.mem_append.mpr (Or.inr hj'))
              (List.mem_map.mpr (by
                obtain ⟨jj, hjj, hjj2⟩ := List.mem_map.mp hmem
                exact ⟨jj, hqsub.mem hjj, hjj2⟩))
          · simp only [List.mem_singleton] at hj'
            subst hj'
            exact hjnotin (by simpa using hmem)
  | clearHist =>
    simp only [stepQueue, DownloadQueue.clear_history, Option.some.injEq] at h
    subst h
    constructor
    · exact qS
    · exact cS
    · intro j hj; simp at hj
    · intro j hj
      rw [mem_allJobs] at hj
      rcases hj with hj | hj | hj
      · exact fOk j (by rw [mem_allJobs]; exact Or.inl hj)
      · exact fOk j (by rw [mem_allJobs]; exact Or.inr (Or.inl hj))
      · simp at hj
    · exact ord
    · intro j hj
      rw [mem_allJobs] at hj
      rcases hj with hj | hj | hj
      · exact idsLt j (by rw [mem_allJobs]; exact Or.inl hj)
      · exact idsLt j (by rw [mem_allJobs]; exact Or.inr (Or.inl hj))
      · simp at hj
    · exact dqLt
    · intro j hj
      simp only [List.append_nil] at hj
      exact disj j (List.mem_append.mpr (Or.inl hj))

theorem reachable_qinv {s : QueueState} (h : Reachable s) : QInv s := by
  induction h with
  | init => exact qinv_init
  | step _ hstep ih => exact qinv_step ih hstep

theorem cancel_not_in_backlog (s : QueueState) (job_id t : Nat)
    (h : job_id ∉ s.queue.map Job.id) : DownloadQueue.cancel s job_id t = (false, s) := by
  rcases cancelFromList_spec s.queue job_id t with ⟨hnone, _⟩ | ⟨l1, j, l2, heq, hid, _, heval⟩
  · simp [DownloadQueue.cancel, hnone]
  · exfalso
    apply h
    rw [heq]
    subst hid
    simp

/-- C2: the worker dequeues jobs in strict FIFO submission order (ids are
assigned in increasing order at submission, the backlog always holds ids in
increasing order, every id already dequeued is smaller than every id still
in the backlog, and the log of dequeued ids is strictly increasing), and at
most one job is ever in-flight: every job with status `downloading`
anywhere in the state is the one job held by the in-flight reference, and a
worker pop step is only enabled when the in-flight reference is empty. -/
theorem worker_fifo_single_inflight (s : QueueState) (h : Reachable s) :
    List.Pairwise (· < ·) s.dequeued ∧
    List.Pairwise (· < ·) (s.queue.map Job.id) ∧
    (∀ i ∈ s.dequeued, ∀ k ∈ s.queue.map Job.id, i < k) ∧
    (∀ j ∈ allJobs s, j.status = DownloadStatus.downloading → s.current_job = some j) ∧
    (∀ t s', stepQueue s (QEvent.startJob t) = some s' → s.current_job = none) := by
  obtain ⟨qS, cS, hS, fOk, ord, idsLt, dqLt, disj⟩ := reachable_qinv h
  obtain ⟨p1, p2, p3⟩ := List.pairwise_append.mp ord
  refine ⟨p1, p2, p3, ?_, ?_⟩
  · intro j hj hdl
    rcases mem_allJobs.mp hj with hj | hj | hj
    · rw [qS j hj] at hdl
      cases hdl
    · exact hj
    · rcases hS j hj with hs | hs <;> rw [hs] at hdl <;> cases hdl
  · intro t s' hstep
    rcases hc : s.current_job with _ | c
    · rfl
    · cases hq : s.queue <;> simp [stepQueue, hc, hq] at hstep

/-- C3: while a job's status is `queued` or `downloading`, result and error
are both unset; once its status is terminal (`completed` or `failed`,
cancellation included) exactly one of result/error is set and the
completion timestamp is non-null — for every job visible in any reachable
queue state. -/
theorem terminal_fields_invariant (s : QueueState) (h : Reachable s) :
    ∀ j ∈ allJobs s,
      ((j.status = DownloadStatus.queued ∨ j.status = DownloadStatus.downloading) →
        j.result = none ∧ j.error = none) ∧
      ((j.status = DownloadStatus.completed ∨ j.status = DownloadStatus.failed) →
        ((j.result ≠ none ∧ j.error = none) ∨ (j.error ≠ none ∧ j.result = none)) ∧
        j.completed_at ≠ none) := by
  intro j hj
  obtain ⟨f1, f2, f3, f4⟩ := (reachable_qinv h).fieldsOk j hj
  constructor
  · rintro (hs | hs)
    · obtain ⟨a, b, _⟩ := f1 hs
      exact ⟨a, b⟩
    · exact f2 hs
  · rintro (hs | hs)
    · obtain ⟨a, b, c⟩ := f3 hs
      exact ⟨Or.inl ⟨a, b⟩, c⟩
    · obtain ⟨a, b, c⟩ := f4 hs
      exact ⟨Or.inr ⟨a, b⟩, c⟩

/-- C5: `cancel` succeeds exactly when the id is in the backlog; on success
the matched job is removed from the backlog, marked failed with the fixed
error "Cancelled by user" and a completion timestamp, and appended to
history, everything else unchanged; for the id of the in-flight job or of
any job already in history (and for ids absent everywhere) it fails and
leaves the state unchanged. -/
theorem cancel_backlog_only (s : QueueState) (job_id t : Nat) (h : Reachable s) :
    ((DownloadQueue.cancel s job_id t).1 = true ↔ job_id ∈ s.queue.map Job.id) ∧
    ((DownloadQueue.cancel s job_id t).1 = false → (DownloadQueue.cancel s job_id t).2 = s) ∧
    ((DownloadQueue.cancel s job_id t).1 = true →
      ∃ l1 j l2, s.queue = l1 ++ j :: l2 ∧ j.id = job_id ∧
        (DownloadQueue.cancel s job_id t).2.queue = l1 ++ l2 ∧
        (DownloadQueue.cancel s job_id t).2.history = s.history ++
          [{ j with
               status := .failed, error := some "Cancelled by user",
               completed_at := some t }] ∧
        (DownloadQueue.cancel s job_id t).2.current_job = s.current_job ∧
        (DownloadQueue.cancel s job_id t).2.next_id = s.next_id) ∧
    (∀ j ∈ s.current_job.toList ++ s.history, (DownloadQueue.cancel s j.id t).1 = false) := by
  have hlast : ∀ j ∈ s.current_job.toList ++ s.history,
      (DownloadQueue.cancel s j.id t).1 = false := by
    intro j hj
    rw [cancel_not_in_backlog s j.id t ((reachable_qinv h).disj j hj)]
  rcases cancelFromList_spec s.queue job_id t with ⟨hnone, hnm⟩ | ⟨l1, j, l2, heq, hid, hfirst, heval⟩
  · refine ⟨?_, ?_, ?_, hlast⟩
    · have h1 : (DownloadQueue.cancel s job_id t).1 = false := by
        simp [DownloadQueue.cancel, hnone]
      rw [h1]
      simp only [Bool.false_eq_true, false_iff]
      exact hnm
    · intro _
      simp [DownloadQueue.cancel, hnone]
    · intro hc
      simp [DownloadQueue.cancel, hnone] at hc
  · refine ⟨?_, ?_, ?_, hlast⟩
    · have h1 : (DownloadQueue.cancel s job_id t).1 = true := by
        simp [DownloadQueue.cancel, heval]
      rw [h1]
      simp only [eq_self_iff_true, true_iff]
      rw [heq]
      subst hid
      simp
    · intro hc
      simp [DownloadQueue.cancel, heval] at hc
    · intro _
      exact ⟨l1, j, l2, heq, hid, by simp [DownloadQueue.cancel, heval],
        by simp [DownloadQueue.cancel, heval], by simp [DownloadQueue.cancel, heval],
        by simp [DownloadQueue.cancel, heval]⟩

/-- C8: `clear_history` empties the history and leaves the backlog, the
in-flight reference, the id counter (and the dequeue log) unchanged, in
every queue state, including states with an in-flight job and a non-empty
backlog. -/
theorem clear_history_frame (s : QueueState) :
    (DownloadQueue.clear_history s).history = [] ∧
    (DownloadQueue.clear_history s).queue = s.queue ∧
    (DownloadQueue.clear_history s).current_job = s.current_job ∧
    (DownloadQueue.clear_history s).next_id = s.next_id ∧
    (DownloadQueue.clear_history s).dequeued = s.dequeued :=
  ⟨rfl, rfl, rfl, rfl, rfl⟩

/-- A first submission, used to build small concrete reachable states. -/
def witReq : AddReq :=
  { url := "https://example.xyz/a", auto_vpn := false, preferred_city := none,
    output_dir := none, format_spec := "best" }

/-- The queue state after one submission. -/
def witState1 : QueueState := (DownloadQueue.add initState witReq 0).2

theorem reach_witState1 : Reachable witState1 :=
  Reachable.step Reachable.init
    (rfl : stepQueue initState (QEvent.add witReq 0) = some witState1)

/-- The in-flight job after the worker pops the first submission. -/
def witJob : Job := markStarted (DownloadQueue.add initState witReq 0).1 1

/-- The queue state after the worker pops the first submission. -/
def witState2 : QueueState :=
  { queue := [], history := [], current_job := some witJob, next_id := 2, dequeued := [1] }

theorem reach_witState2 : Reachable witState2 :=
  @Reachable.step witState1 (QEvent.startJob 1) witState2 reach_witState1 (by decide)

theorem worker_fifo_single_inflight_witness :
    List.Pairwise (· < ·) witState2.dequeued :=
  (worker_fifo_single_inflight witState2 reach_witState2).1

theorem terminal_fields_invariant_witness :
    witJob.result = none ∧ witJob.error = none :=
  ((terminal_fields_invariant witState2 reach_witState2) witJob (by decide)).1
    (Or.inr (by decide))

theorem cancel_backlog_only_witness :
    (DownloadQueue.cancel witState1 1 5).1 = true :=
  (cancel_backlog_only witState1 1 5 reach_witState1).1.mpr (by decide)

/-- Lemma: `vpnStep` never reads the teardown outcome. -/
theorem vpnStep_down (url : String) (a : Bool) (pc : Option String) (w : DlWorld)
    (d : RunOutcome) : vpnStep url a pc { w with downOutcome := d } = vpnStep url a pc w := rfl

/-- When `mkdir` does not raise, `_download_video_internal` returns normally
for every fetch outcome, with the descriptive VPN line in front. -/
theorem download_ret (url : String) (a : Bool) (pc od : Option String) (fs : String)
    (w : DlWorld) (hm : w.mkdirFails = none) :
    (download_video_internal url a pc od fs w).ret = Except.ok
      (match w.fetchOutcome with
       | .exited code out err =>
         if code = 0 then (vpnStep url a pc w).2 ++ "\n\nDownload successful!\n" ++ out
         else (vpnStep url a pc w).2 ++ "\n\nDownload failed:\n" ++ err
       | .timedOut => (vpnStep url a pc w).2 ++ "\n\nDownload timed out after 10 minutes"
       | .raised m => (vpnStep url a pc w).2 ++ "\n\nError: " ++ m) := by
  unfold download_video_internal
  simp only [hm]
  split
  · split <;> rfl
  · rfl

/-- The value `_download_video_internal` returns never depends on the
outcome of the teardown call in its `finally` block. -/
theorem download_down_ret (url : String) (a : Bool) (pc od : Option String) (fs : String)
    (w w' : DlWorld) (hm : w.mkdirFails = none) (hm' : w'.mkdirFails = none)
    (hsb : w'.showBefore = w.showBefore) (hcfg : w'.configs = w.configs)
    (hup : w'.upOutcome = w.upOutcome) (hf : w'.fetchOutcome = w.fetchOutcome) :
    (download_video_internal url a pc od fs w').ret =
    (download_video_internal url a pc od fs w).ret := by
  have hvs : vpnStep url a pc w' = vpnStep url a pc w := by
    unfold vpnStep
    rw [hsb, hcfg, hup]
  rw [download_ret url a pc od fs w' hm', download_ret url a pc od fs w hm, hf, hvs]

/-- A job whose download is processed with a fetch that exits non-zero. -/
def cexJob : Job :=
  { id := 1, url := "https://example.xyz/v", status := .queued, auto_vpn := false,
    preferred_city := none, output_dir := none, format_spec := "best", added_at := 0 }

/-- A world in which the fetch tool exits with code 1 and standard error text. -/
def cexWorld : DlWorld :=
  { mkdirFails := none, showBefore := .ran 0 "" "", configs := [],
    upOutcome := .exited 0 "" "", fetchOutcome := .exited 1 "" "ERROR: boom",
    showAfter := .ran 0 "" "", downOutcome := .exited 0 "" "" }

/-- C1 counterexample: a fetch that exits with the non-zero code 1 leaves the
job `completed` with the failure text inside `result` and `error` unset —
not `failed` with `error` set, as the claim states.  The same holds for the
timeout path: `_download_video_internal` returns the diagnostic string
instead of raising, so `_process_job` takes its success branch. -/
theorem fetch_nonzero_completed_cex :
    (process_job cexJob cexWorld 1 2).status = DownloadStatus.completed ∧
    ¬ (process_job cexJob cexWorld 1 2).status = DownloadStatus.failed ∧
    (process_job cexJob cexWorld 1 2).error = none ∧
    (process_job cexJob cexWorld 1 2).result =
      some "Proceeding without VPN\n\nDownload failed:\nERROR: boom" := by decide

/-- C1 (amended): on a clean fetch exit the job becomes `completed` with
result = VPN line + fetch standard output; on a non-zero fetch exit the job
also becomes `completed`, with result = VPN line + the "Download failed"
notice + fetch standard error; on a fetch timeout the job also becomes
`completed`, with result = VPN line + a timeout notice; the job becomes
`failed` with `error` set only when the download routine raises before its
`try` block (creating the output directory fails). -/
theorem fetch_outcome_job_fields (j : Job) (w : DlWorld) (t0 t1 : Nat) :
    (∀ code out err, w.mkdirFails = none → w.fetchOutcome = FetchOutcome.exited code out err →
      code = 0 →
      (process_job j w t0 t1).status = DownloadStatus.completed ∧
      (process_job j w t0 t1).result =
        some ((vpnStep j.url j.auto_vpn j.preferred_city w).2 ++ "\n\nDownload successful!\n" ++ out)) ∧
    (∀ code out err, w.mkdirFails = none → w.fetchOutcome = FetchOutcome.exited code out err →
      code ≠ 0 →
      (process_job j w t0 t1).status = DownloadStatus.completed ∧
      (process_job j w t0 t1).result =
        some ((vpnStep j.url j.auto_vpn j.preferred_city w).2 ++ "\n\nDownload failed:\n" ++ err)) ∧
    (w.mkdirFails = none → w.fetchOutcome = FetchOutcome.timedOut →
      (process_job j w t0 t1).status = DownloadStatus.completed ∧
      (process_job j w t0 t1).result =
        some ((vpnStep j.url j.auto_vpn j.preferred_city w).2 ++ "\n\nDownload timed out after 10 minutes")) ∧
    (∀ e, w.mkdirFails = some e →
      (process_job j w t0 t1).status = DownloadStatus.failed ∧
      (process_job j w t0 t1).error = some e ∧
      (process_job j w t0 t1).result = j.result) := by
  refine ⟨?_, ?_, ?_, ?_⟩
  · intro code out err hm hf hc
    subst hc
    unfold process_job
    rw [download_ret j.url j.auto_vpn j.preferred_city j.output_dir j.format_spec w hm, hf]
    simp [applyOutcome]
  · intro code out err hm hf hc
    unfold process_job
    rw [download_ret j.url j.auto_vpn j.preferred_city j.output_dir j.format_spec w hm, hf]
    simp [applyOutcome, hc]
  · intro hm hf
    unfold process_job
    rw [download_ret j.url j.auto_vpn j.preferred_city j.output_dir j.format_spec w hm, hf]
    simp [applyOutcome]
  · intro e hm
    unfold process_job download_video_internal
    rw [hm]
    simp [applyOutcome, markStarted]

theorem fetch_outcome_job_fields_witness :
    (process_job cexJob { cexWorld with fetchOutcome := .exited 0 "done" "" } 1 2).status =
      DownloadStatus.completed :=
  ((fetch_outcome_job_fields cexJob { cexWorld with fetchOutcome := .exited 0 "done" "" } 1 2).1
    0 "done" "" rfl rfl rfl).1

/-- C4: whenever a job itself brought the VPN up (`vpn_started`) and no VPN
interface was active before it began, the `finally` teardown re-queries the
active interface and brings it down when one is found, and the value the
download routine returns (hence the job's result/error) does not depend on
the teardown outcome — teardown failure is never escalated. -/
theorem vpn_teardown_best_effort (url : String) (auto_vpn : Bool) (pc od : Option String)
    (fs : String) (w : DlWorld)
    (h1 : (download_video_internal url auto_vpn pc od fs w).vpn_started = true)
    (h2 : get_active_wireguard w.showBefore = none) :
    (download_video_internal url auto_vpn pc od fs w).queriedAfter = true ∧
    (∀ active, get_active_wireguard w.showAfter = some active →
      (download_video_internal url auto_vpn pc od fs w).downCall =
        some (active, wireguard_down active w.downOutcome)) ∧
    (∀ d, (download_video_internal url auto_vpn pc od fs { w with downOutcome := d }).ret =
          (download_video_internal url auto_vpn pc od fs w).ret) := by
  rcases hm : w.mkdirFails with _ | e
  · have hvs : (vpnStep url auto_vpn pc w).1 = true := by
      unfold download_video_internal at h1
      simp only [hm] at h1
      split at h1
      · split at h1 <;> simpa using h1
      · simpa using h1
    refine ⟨?_, ?_, ?_⟩
    · unfold download_video_internal
      simp only [hm, hvs, h2, Option.isNone_none, Bool.and_self, if_true]
      split <;> rfl
    · intro active hact
      unfold download_video_internal
      simp only [hm, hvs, h2, Option.isNone_none, Bool.and_self, if_true, hact]
    · intro d
      refine download_down_ret url auto_vpn pc od fs w _ hm ?_ ?_ ?_ ?_ ?_ <;> rfl
  · unfold download_video_internal at h1
    simp only [hm] at h1
    cases h1

/-- A world in which the job starts the VPN itself and the interface is still
up after the fetch. -/
def teardownWorld : DlWorld :=
  { mkdirFails := none, showBefore := .ran 0 "" "", configs := ["gb-lon-wg-001"],
    upOutcome := .exited 0 "" "", fetchOutcome := .exited 0 "done" "",
    showAfter := .ran 0 "gb-lon-wg-001" "", downOutcome := .exited 0 "" "" }

theorem vpn_teardown_best_effort_witness :
    (download_video_internal "https://www.bbc.co.uk/iplayer/x" true none none "best"
      teardownWorld).queriedAfter = true :=
  (vpn_teardown_best_effort "https://www.bbc.co.uk/iplayer/x" true none none "best"
    teardownWorld (by decide) (by decide)).1

/-- A parsed city code always has three characters. -/
theorem parse_config_location_city_length {stem : String} {loc : String × String}
    (h : parse_config_location stem = some loc) : loc.2.length = 3 := by
  unfold parse_config_location at h
  split at h
  · split at h
    · simp only [Option.some.injEq] at h
      subst h
      rfl
    · exact absurd h (by simp)
  · exact absurd h (by simp)

/-- Membership in the per-country config list comes from a config in the
listing whose parsed location has this country. -/
theorem configLocations_mem {configs : List String} {c : String} {p : String × String}
    (hp : p ∈ configLocations configs c) :
    p.1 ∈ configs ∧ parse_config_location p.1 = some (c, p.2) := by
  unfold configLocations at hp
  obtain ⟨a, ha, hfa⟩ := List.mem_filterMap.mp hp
  rcases hpa : parse_config_location a with _ | ⟨lc, lci⟩
  · rw [hpa] at hfa
    exact absurd hfa (by simp)
  · rw [hpa] at hfa
    by_cases hc : lc = c
    · subst hc
      simp at hfa
      subst hfa
      exact ⟨ha, hpa⟩
    · simp [hc] at hfa

/-- C6: `select_best_config` returns "no selection" when the country is
absent and when no config parses to the given country; when configs for the
country exist and the preferred city matches at least one of them it
returns the first match in listing order; otherwise the first config of
that country in listing order; and it is a pure function of its inputs
(same inputs, same result). -/
theorem select_best_config_spec :
    (∀ configs pc, select_best_config configs none pc = none) ∧
    (∀ configs c pc, configLocations configs c = [] →
      select_best_config configs (some c) pc = none) ∧
    (∀ configs c pc x, (configLocations configs c).find? (fun p => p.2 == pc) = some x →
      select_best_config configs (some c) (some pc) = some x.1) ∧
    (∀ configs c pc, (configLocations configs c).find? (fun p => p.2 == pc) = none →
      select_best_config configs (some c) (some pc) =
        ((configLocations configs c).head?.map Prod.fst)) ∧
    (∀ configs c, select_best_config configs (some c) none =
        ((configLocations configs c).head?.map Prod.fst)) ∧
    (∀ configs country pc, select_best_config configs country pc =
        select_best_config configs country pc) := by
  refine ⟨fun _ _ => rfl, ?_, ?_, ?_, ?_, fun _ _ _ => rfl⟩
  · intro configs c pc hl
    simp [select_best_config, hl]
  · intro configs c pc x hfind
    obtain ⟨x1, x2⟩ := x
    have hxmem := List.mem_of_find?_eq_some hfind
    have hx2 : x2 = pc := by simpa using List.find?_some hfind
    have hlen : x2.length = 3 :=
      parse_config_location_city_length (configLocations_mem hxmem).2
    have hpcne : pc.isEmpty = false := by
      cases hemp : pc.isEmpty
      · rfl
      · exfalso
        have hpc : pc = "" := (String.isEmpty_iff pc).mp hemp
        rw [hpc] at hx2
        rw [hx2] at hlen
        simp at hlen
    rcases hl : configLocations configs c with _ | ⟨first, rest⟩
    · rw [hl] at hfind
      simp at hfind
    · rw [hl] at hfind
      simp [select_best_config, hl, hfind, hpcne]
  · intro configs c pc hfind
    rcases hl : configLocations configs c with _ | ⟨first, rest⟩
    · simp [select_best_config, hl]
    · rw [hl] at hfind
      cases hemp : pc.isEmpty
      · simp [select_best_config, hl, hemp, hfind]
      · simp [select_best_config, hl, hemp]
  · intro configs c
    rcases hl : configLocations configs c with _ | ⟨first, rest⟩ <;>
      simp [select_best_config, hl]

theorem select_best_config_spec_witness :
    select_best_config ["gb-lon-wg-001", "gb-man-wg-002"] (some "gb") (some "man") =
      some "gb-man-wg-002" :=
  select_best_config_spec.2.2.1 ["gb-lon-wg-001", "gb-man-wg-002"] "gb" "man"
    ("gb-man-wg-002", "man") (by decide)

/-- The country table as the spec describes it: an ordered list of
(predicate, country-code) pairs over the lowercased URL and lowercased
domain, evaluated top to bottom, first match wins.  Written from the spec's
words, to be compared with `detect_url_country` above. -/
def countryRules : List ((String → String → Bool) × Option String) :=
  [ (fun _ d => anyIn d ukServiceDomains, some "gb"),
    (fun u d => strContains d ".uk" || strContains u "britain" || strContains u "british", some "gb"),
    (fun _ d => anyIn d usServiceDomains, some "us"),
    (fun _ d => strContains d ".us", some "us"),
    (fun _ d => anyIn d caServiceDomains, some "ca"),
    (fun u d => strContains d ".ca" || strContains u "canada" || strContains u "canadian", some "ca"),
    (fun _ d => anyIn d auServiceDomains, some "au"),
    (fun u d => strContains d ".au" || strContains u "australia", some "au"),
    (fun u d => strContains d ".nz" || strContains u "newzealand", some "nz"),
    (fun u d => strContains d ".de" || strContains u "germany" || strContains u "deutsche", some "de"),
    (fun u d => strContains d ".fr" || strContains u "france", some "fr"),
    (fun u d => strContains d ".it" || strContains u "italy" || strContains u "italia", some "it"),
    (fun u d => strContains d ".es" || strContains u "spain" || strContains u "españa", some "es"),
    (fun u d => strContains d ".nl" || strContains u "netherlands", some "nl"),
    (fun u d => strContains d ".se" || strContains u "sweden", some "se"),
    (fun u d => strContains d ".no" || strContains u "norway", some "no"),
    (fun u d => strContains d ".dk" || strContains u "denmark", some "dk"),
    (fun u d => strContains d ".jp" || strContains u "japan", some "jp"),
    (fun u d => strContains d ".kr" || strContains u "korea", some "kr"),
    (fun u d => strContains d ".sg" || strContains u "singapore", some "sg"),
    (fun u d => strContains d ".hk" || strContains u "hongkong", some "hk"),
    (fun _ d => strContains d "youtube.com" || strContains d "youtu.be", none) ]

/-- Evaluate an ordered rule table: first matching rule's code, `none` when
nothing matches. -/
def evalRules : List ((String → String → Bool) × Option String) → String → String → Option String
  | [], _, _ => none
  | r :: rest, u, d => if r.1 u d then r.2 else evalRules rest u d

/-- C7: `detect_url_country` is exactly the top-to-bottom, first-match-wins
evaluation of its fixed rule table; a YouTube URL not caught by an earlier
rule yields no country, and a URL matching no rule yields no country. -/
theorem detect_country_first_match :
    (∀ url, detect_url_country url =
      evalRules countryRules (pyLower url) (pyLower (urlNetloc url))) ∧
    detect_url_country "https://www.youtube.com/watch?v=abc" = none ∧
    detect_url_country "https://youtu.be/abc" = none ∧
    detect_url_country "https://example.xyz/v" = none :=
  ⟨fun _ => rfl, by decide, by decide, by decide⟩

/-- C9: `get_active_wireguard` returns the first interface name the external
tool reports, and `none` when the tool reports no interfaces, exits with an
error, or is not installed — never escalating an error. -/
theorem active_interface_spec :
    (∀ stdout stderr name rest, pySplit (pyStrip stdout) = name :: rest →
      get_active_wireguard (WgShowOutcome.ran 0 stdout stderr) = some name) ∧
    (∀ stdout stderr, pySplit (pyStrip stdout) = [] →
      get_active_wireguard (WgShowOutcome.ran 0 stdout stderr) = none) ∧
    (∀ code stdout stderr, code ≠ 0 →
      get_active_wireguard (WgShowOutcome.ran code stdout stderr) = none) ∧
    get_active_wireguard WgShowOutcome.notInstalled = none ∧
    get_active_wireguard (WgShowOutcome.ran 0 " wg0 wg1\n" "") = some "wg0" := by
  refine ⟨?_, ?_, ?_, rfl, by decide⟩
  · intro out err name rest hsplit
    simp [get_active_wireguard, hsplit]
  · intro out err hsplit
    simp [get_active_wireguard, hsplit]
  · intro code out err hcode
    simp [get_active_wireguard, hcode]

theorem active_interface_spec_witness :
    get_active_wireguard (WgShowOutcome.ran 5 "wg0" "oops") = none :=
  active_interface_spec.2.2.1 5 "wg0" "oops" (by decide)

/-- C10: country detection is substring containment, not domain-suffix
matching — every URL whose (lowercased) domain contains ".uk" anywhere and
is not caught by the one earlier rule is classified as "gb". -/
theorem uk_substring_detection (url : String)
    (h1 : strContains (pyLower (urlNetloc url)) ".uk" = true)
    (h2 : anyIn (pyLower (urlNetloc url)) ukServiceDomains = false) :
    detect_url_country url = some "gb" := by
  unfold detect_url_country
  simp [h1, h2]

theorem uk_substring_detection_witness :
    detect_url_country "https://www.ukraine.org/video" = some "gb" :=
  uk_substring_detection "https://www.ukraine.org/video" (by decide) (by decide)

example : detect_url_country "https://www.youtube.com/watch?v=abc" = none := by decide
example : detect_url_country "https://www.bbc.co.uk/iplayer/x" = some "gb" := by decide
example : detect_url_country "https://www.ukraine.org/video" = some "gb" := by decide
example : detect_url_country "https://example.xyz/v" = none := by decide
example : parse_config_location "gb-lon-wg-001" = some ("gb", "lon") := by decide
example : select_best_config ["gb-lon-wg-001", "gb-man-wg-002"] (some "gb") (some "man") = some "gb-man-wg-002" := by decide
example : get_active_wireguard (.ran 0 " wg0 wg1\n" "") = some "wg0" := by decide
